import Mathlib

/-!
# Verification of the pngsort pixel-sorting system

This development formalises the pngsort repository in two layers.

* The **sorting engine** (partitioner, key extractor, segment sorter, writeback,
  boundary validation).  The engine itself is shipped only as a compiled WASM
  artifact (`pkg/pngsort_bg.wasm`); its source is not part of the repository, so
  the engine definitions below are modelled from the specification document
  (each such definition carries a doc comment starting `Modelled from the spec:`).
* The **TypeScript host** (`src/main.ts`): the `PngSorter` wrapper class and the
  `PngSortApp` UI handlers.  These are translated directly from the TypeScript
  source.

All buffers are modelled as `List Nat` (byte values), images as explicit
structures, and the JavaScript exception discipline as an explicit
`JsResult` sum type.
-/

namespace Pngsort

/-- Modelled from the spec: a `Channel` is one of `{R, G, B, A}`, identifying a
byte offset within each pixel's tuple (§3).  The engine source containing this
type is the missing WASM module. -/
inductive Channel where
  | R
  | G
  | B
  | A
deriving DecidableEq

/-- Modelled from the spec: `RangeMode` selects how the image is partitioned
into independently-sorted lines (§3, §4.2).  From the missing WASM engine. -/
inductive RangeMode where
  | Row
  | Column
  | RowMajor
  | ColumnMajor
deriving DecidableEq

/-- Modelled from the spec: `TieMode` selects how the sort key is computed and
how equal keys are ordered (§3, §4.3).  From the missing WASM engine. -/
inductive TieMode where
  | Untied
  | TiedBySum
  | TiedByOrder
deriving DecidableEq

/-- Modelled from the spec: an `Image` is `{width, height, channels, buffer}`
with the shape invariant `buffer.length = width*height*channels.length`
checked at the boundary (§3).  From the missing WASM engine. -/
structure Image where
  width : Nat
  height : Nat
  channels : List Channel
  buffer : List Nat
deriving DecidableEq

/-- Modelled from the spec: `SortConfig` as consumed by the engine boundary
(§3, §6); `sort_mode` is optional and defaults to `Untied`.  From the missing
WASM engine. -/
structure SortConfig where
  descending : Bool
  sort_range : RangeMode
  sort_mode : Option TieMode
  sort_channel : List Channel
deriving DecidableEq

/-- Modelled from the spec: the Pixel Buffer View (§4.1) of the missing WASM
engine.  `chunkPixelsAux c n buf` splits the flat channel buffer into the `n`
consecutive channel tuples of `c` bytes each (on a shape-valid image,
`n = width*height` and `buf.length = n*c`). -/
def chunkPixelsAux (c : Nat) : Nat → List Nat → List (List Nat)
  | 0, _ => []
  | Nat.succ n, buf => buf.take c :: chunkPixelsAux c n (buf.drop c)

/-- Modelled from the spec: the sequence of `width*height` pixel channel-tuples
of an image, in flat-index order (§3, §4.1).  From the missing WASM engine. -/
def Image.pixels (img : Image) : List (List Nat) :=
  chunkPixelsAux img.channels.length (img.width * img.height) img.buffer

/-- Modelled from the spec: `get(index)` of the Pixel Buffer View (§4.1),
returning the channel tuple at a flat pixel index.  From the missing WASM
engine. -/
def Image.pixelTuple (img : Image) (i : Nat) : List Nat :=
  img.pixels.getD i []

/-- Modelled from the spec: the byte offset of a channel within a pixel's
tuple, fixed by the image's pixel format (§3).  From the missing WASM
engine. -/
def channelIndex (fmt : List Channel) (ch : Channel) : Nat :=
  fmt.findIdx (fun c => c == ch)

/-- Modelled from the spec: the Key Extractor's *raw channel tuple* of a pixel,
namely the ordered sequence of its channel values following `sort_channel`'s
priority order (§4.3).  From the missing WASM engine. -/
def rawTuple (img : Image) (cfg : SortConfig) (i : Nat) : List Nat :=
  cfg.sort_channel.map (fun ch => (img.pixelTuple i).getD (channelIndex img.channels ch) 0)

/-- Modelled from the spec: the effective tie mode, `Untied` when `sort_mode`
is omitted (§3, §6).  From the missing WASM engine. -/
def effMode (cfg : SortConfig) : TieMode :=
  cfg.sort_mode.getD TieMode.Untied

/-- Modelled from the spec: the sort key of a pixel (§4.3).  Under `TiedBySum`
it is the single scalar sum of the raw channel tuple; under `Untied` and
`TiedByOrder` the comparison cascades through the raw channel tuple in
priority order, i.e. the key is the tuple itself compared lexicographically.
From the missing WASM engine. -/
def sortKey (img : Image) (cfg : SortConfig) (i : Nat) : List Nat :=
  match effMode cfg with
  | TieMode.TiedBySum => [(rawTuple img cfg i).sum]
  | TieMode.Untied => rawTuple img cfg i
  | TieMode.TiedByOrder => rawTuple img cfg i

/-- Modelled from the spec: lexicographic comparison of key tuples over
unsigned integer channel values (§4.3).  From the missing WASM engine. -/
def lexLE : List Nat → List Nat → Bool
  | [], _ => true
  | _ :: _, [] => false
  | a :: as, b :: bs => if a < b then true else if b < a then false else lexLE as bs

/-- Modelled from the spec: the comparison used between two pixel indices of a
line; `descending = true` flips the direction of the key comparison while ties
are still resolved by original position (§4.3, §8 direction symmetry).  From
the missing WASM engine. -/
def pixLE (img : Image) (cfg : SortConfig) (i j : Nat) : Bool :=
  if cfg.descending then lexLE (sortKey img cfg j) (sortKey img cfg i)
  else lexLE (sortKey img cfg i) (sortKey img cfg j)

/-- Modelled from the spec: the Segment Sorter (§4.3) of the missing WASM
engine — a stable sort of one line of pixel indices by their keys (ties keep
their original relative position within the line). -/
def sortLine (img : Image) (cfg : SortConfig) (line : List Nat) : List Nat :=
  List.insertionSort (fun i j => pixLE img cfg i j = true) line

/-- Modelled from the spec: `Row` partitioning — one line per row, pixel
indices left-to-right (§4.2).  From the missing WASM engine. -/
def rowLines (w h : Nat) : List (List Nat) :=
  (List.range h).map (fun y => (List.range w).map (fun x => y * w + x))

/-- Modelled from the spec: `Column` partitioning — one line per column, pixel
indices top-to-bottom (§4.2).  From the missing WASM engine. -/
def colLines (w h : Nat) : List (List Nat) :=
  (List.range w).map (fun x => (List.range h).map (fun y => y * w + x))

/-- Modelled from the spec: the Partitioner (§4.2) of the missing WASM engine,
mapping `RangeMode` to the ordered list of lines. -/
def partitionLines (w h : Nat) : RangeMode → List (List Nat)
  | RangeMode.Row => rowLines w h
  | RangeMode.Column => colLines w h
  | RangeMode.RowMajor => [List.range (w * h)]
  | RangeMode.ColumnMajor => [(colLines w h).flatten]

/-- Modelled from the spec: the per-line destination/source pairs produced by
the Segment Sorter (§4.3): position `line[k]` of the output receives the pixel
at index `(sortLine line)[k]` of the input.  From the missing WASM engine. -/
def linePairs (img : Image) (cfg : SortConfig) : List (Nat × Nat) :=
  ((partitionLines img.width img.height cfg.sort_range).map
    (fun line => line.zip (sortLine img cfg line))).flatten

/-- Modelled from the spec: one Writeback step (§4.4): copy the source pixel's
channel tuple from the read-only input into the destination slot of the output
buffer; the input component of the state is never written.  From the missing
WASM engine. -/
def writebackStep (pixIn : List (List Nat)) (st : List (List Nat) × List (List Nat))
    (p : Nat × Nat) : List (List Nat) × List (List Nat) :=
  (st.1, st.2.set p.1 (pixIn.getD p.2 []))

/-- Modelled from the spec: the Writeback pass (§4.4) of the missing WASM
engine, applying all computed destination/source pairs to an
(input, output) buffer pair. -/
def writeback (pixIn : List (List Nat)) (pairs : List (Nat × Nat))
    (st : List (List Nat) × List (List Nat)) : List (List Nat) × List (List Nat) :=
  pairs.foldl (writebackStep pixIn) st

/-- Modelled from the spec: run the Writeback over a freshly allocated output
buffer, threading the input pixel buffer through unchanged (§4.4, §3
ownership).  From the missing WASM engine. -/
def runWriteback (img : Image) (cfg : SortConfig) : List (List Nat) × List (List Nat) :=
  writeback img.pixels (linePairs img cfg)
    (img.pixels, List.replicate (img.width * img.height) [])

/-- Modelled from the spec: the engine's error taxonomy (§7): `configError` and
`shapeError` carry the offending field and what was expected;
`internalInvariantError` is a distinct fatal kind.  From the missing WASM
engine. -/
inductive EngineError where
  | configError (field expected : String)
  | shapeError (field expected : String)
  | internalInvariantError (message : String)
deriving DecidableEq

/-- Modelled from the spec: boundary validation (§7): empty or duplicate
`sort_channel`, a channel absent from the pixel format, or a mis-shaped buffer
are rejected before any output is produced.  From the missing WASM engine. -/
def validate (img : Image) (cfg : SortConfig) : Option EngineError :=
  if cfg.sort_channel = [] then
    some (EngineError.configError "sort_channel" "a non-empty list of channels")
  else if ¬ cfg.sort_channel.Nodup then
    some (EngineError.configError "sort_channel" "a duplicate-free list of channels")
  else if ¬ (∀ ch ∈ cfg.sort_channel, ch ∈ img.channels) then
    some (EngineError.configError "sort_channel" "channels present in the image pixel format")
  else if img.buffer.length ≠ img.width * img.height * img.channels.length then
    some (EngineError.shapeError "buffer" "length equal to width * height * channel count")
  else
    none

/-- Modelled from the spec: the engine entry point (§6): validate, then
partition, key, sort and write back into a freshly allocated output buffer of
identical shape, or fail before any output is produced (§5, §7).  From the
missing WASM engine. -/
def processImage (img : Image) (cfg : SortConfig) : Except EngineError Image :=
  match validate img cfg with
  | some e => Except.error e
  | none =>
    Except.ok
      { width := img.width
        height := img.height
        channels := img.channels
        buffer := (runWriteback img cfg).2.flatten }

/-! ## The TypeScript host, translated from `src/main.ts` -/

/-- Outcome of a JavaScript call: a resolved value, or a thrown error carrying
its message. -/
inductive JsResult (α : Type) where
  | ok (value : α)
  | thrown (message : String)
deriving DecidableEq

/-- The `PngSorter` wrapper class state (`src/main.ts`, line 10): the single
private field `isInitialized`, initially `false`. -/
structure PngSorter where
  isInitialized : Bool
deriving DecidableEq

/-- Translation of `PngSorter.init` (`src/main.ts`, lines 13-23): await `wasmInit()`; on
success set `isInitialized = true`, on failure rethrow
`'Failed to initialize PNG sorter'` leaving the state unchanged.  The outcome
of the external `wasmInit()` call is passed in explicitly. -/
def PngSorter.init (s : PngSorter) (wasmInitResult : Except String Unit) :
    PngSorter × JsResult Unit :=
  match wasmInitResult with
  | Except.ok _ => ({ isInitialized := true }, JsResult.ok ())
  | Except.error _ => (s, JsResult.thrown "Failed to initialize PNG sorter")

/-- Translation of `PngSorter.processImage` (`src/main.ts`, lines 25-46): throw
`'WASM module not initialized'` before touching the engine when
`isInitialized` is false; otherwise call `wasm_main` and, should anything
throw, rethrow the generic `'Failed to process image'`.  The external
`wasm_main` is passed in as a function; the returned flag records whether it
was invoked. -/
def PngSorter.processImage (s : PngSorter)
    (wasmMain : String → List Nat → Except EngineError (List Nat))
    (configStr : String) (input : List Nat) : JsResult (List Nat) × Bool :=
  if s.isInitialized = false then
    (JsResult.thrown "WASM module not initialized", false)
  else
    match wasmMain configStr input with
    | Except.ok result => (JsResult.ok result, true)
    | Except.error _ => (JsResult.thrown "Failed to process image", true)

/-- One `.channel-item` of the priority list DOM (`src/main.ts`):
`checkbox` is the checked state of its `input[type="checkbox"]` when that
element exists, and `dataChannel` its `data-channel` attribute when present. -/
structure ChannelItem where
  checkbox : Option Bool
  dataChannel : Option String
deriving DecidableEq

/-- Translation of `PngSortApp.getSelectedChannelsInOrder` (`src/main.ts`, lines 338-353):
walk the channel items in DOM order, pushing the `data-channel` attribute of
every item whose checkbox exists and is checked. -/
def getSelectedChannelsInOrder (items : List ChannelItem) : List String :=
  items.foldl
    (fun channels item =>
      match item.checkbox with
      | some true =>
        match item.dataChannel with
        | some ch => channels ++ [ch]
        | none => channels
      | _ => channels)
    []

/-- A JavaScript `File` as used by the app: its `name` and MIME `type`. -/
structure JsFile where
  name : String
  mimeType : String
deriving DecidableEq

/-- Whether the pattern is a leading segment of the character list. -/
def charsLeadWith : List Char → List Char → Bool
  | [], _ => true
  | _ :: _, [] => false
  | p :: ps, c :: cs => p == c && charsLeadWith ps cs

/-- Whether the pattern occurs as a contiguous segment of the character
list. -/
def charsContain (pat : List Char) : List Char → Bool
  | [] => charsLeadWith pat []
  | c :: cs => charsLeadWith pat (c :: cs) || charsContain pat cs

/-- The test `file.type.match(/image\/png/)` (`src/main.ts`, line 201): an
unanchored regex match, i.e. `"image/png"` occurs somewhere in the string. -/
def typeMatchesPng (t : String) : Bool :=
  charsContain "image/png".data t.data

/-- A message shown through `showMessage` (`src/main.ts`, lines 307-323),
tagged with its kind. -/
inductive UiMessage where
  | infoMsg (text : String)
  | successMsg (text : String)
  | errorMsg (text : String)
deriving DecidableEq

/-- The part of the `PngSortApp` state the image-selection and processing
handlers read and write: the `currentImageFile` field (`src/main.ts`,
line 51). -/
structure AppState where
  currentImageFile : Option JsFile
deriving DecidableEq

/-- Translation of `PngSortApp.handleImageSelect` (`src/main.ts`, lines 196-210): when a file
was selected, reject it with an error message if its type does not match
`/image\/png/` (leaving `currentImageFile` unchanged), otherwise store it and
show a success message. -/
def handleImageSelect (st : AppState) (selectedFile : Option JsFile) :
    AppState × Option UiMessage :=
  match selectedFile with
  | none => (st, none)
  | some file =>
    if typeMatchesPng file.mimeType = false then
      (st, some (UiMessage.errorMsg "Please select a PNG image file."))
    else
      ({ currentImageFile := some file }, some (UiMessage.successMsg ("Selected: " ++ file.name)))

/-- The observable outcome of `PngSortApp.handleProcessImage`
(`src/main.ts`, lines 212-252): an early error return, or an invocation of
`pngSorter.processImage` with the config built from the UI controls. -/
inductive ProcessOutcome where
  | noFileError
  | emptyChannelsError
  | invoked (descending : Bool) (rangeValue modeValue : String) (channels : List String)
deriving DecidableEq

/-- Translation of `PngSortApp.handleProcessImage` (`src/main.ts`, lines 212-252), up to the
engine call: bail out with an error message when no image is selected; build
the channel list; bail out with an error message when it is empty; otherwise
invoke the engine with the config assembled from the controls. -/
def handleProcessImage (st : AppState) (items : List ChannelItem)
    (descendingChecked : Bool) (rangeValue modeValue : String) : ProcessOutcome :=
  match st.currentImageFile with
  | none => ProcessOutcome.noFileError
  | some _ =>
    let channels := getSelectedChannelsInOrder items
    if channels.length = 0 then ProcessOutcome.emptyChannelsError
    else ProcessOutcome.invoked descendingChecked rangeValue modeValue channels

/-! ## Concrete inputs used by the witnesses -/

/-- A 2×1 single-channel image with pixel values 9 and 5. -/
def imgA : Image := { width := 2, height := 1, channels := [Channel.R], buffer := [9, 5] }

/-- Ascending row sort on the red channel. -/
def cfgA : SortConfig :=
  { descending := false
    sort_range := RangeMode.Row
    sort_mode := some TieMode.Untied
    sort_channel := [Channel.R] }

/-- The output the engine produces for `imgA` under `cfgA`. -/
def outA : Image := { width := 2, height := 1, channels := [Channel.R], buffer := [5, 9] }

/-- The spec's tie scenario (§8): a 2×1 RGB image whose pixels `(3,1,0)` and
`(1,3,0)` both have channel sum 4 under `sort_channel = [R, G]`. -/
def imgB : Image :=
  { width := 2, height := 1, channels := [Channel.R, Channel.G, Channel.B]
    buffer := [3, 1, 0, 1, 3, 0] }

/-- A `TiedBySum` row sort with priority `[R, G]`. -/
def cfgB : SortConfig :=
  { descending := false
    sort_range := RangeMode.Row
    sort_mode := some TieMode.TiedBySum
    sort_channel := [Channel.R, Channel.G] }

/-! ## Helper lemmas -/

theorem lexLE_refl : ∀ l : List Nat, lexLE l l = true
  | [] => rfl
  | a :: as => by simp [lexLE, lexLE_refl as]

theorem sortLine_perm (img : Image) (cfg : SortConfig) (line : List Nat) :
    List.Perm (sortLine img cfg line) line :=
  List.perm_insertionSort _ line

theorem sortLine_length (img : Image) (cfg : SortConfig) (line : List Nat) :
    (sortLine img cfg line).length = line.length :=
  List.length_insertionSort _ line

theorem writeback_fst (pixIn : List (List Nat)) :
    ∀ (pairs : List (Nat × Nat)) (st : List (List Nat) × List (List Nat)),
      (writeback pixIn pairs st).1 = st.1
  | [], _ => rfl
  | p :: rest, st => by
    show (writeback pixIn rest (writebackStep pixIn st p)).1 = st.1
    rw [writeback_fst pixIn rest]
    rfl

theorem writeback_snd_length (pixIn : List (List Nat)) :
    ∀ (pairs : List (Nat × Nat)) (st : List (List Nat) × List (List Nat)),
      (writeback pixIn pairs st).2.length = st.2.length
  | [], _ => rfl
  | p :: rest, st => by
    show (writeback pixIn rest (writebackStep pixIn st p)).2.length = st.2.length
    rw [writeback_snd_length pixIn rest]
    exact List.length_set st.2 p.1 _

theorem find?_keys_eq_some {pairs : List (Nat × Nat)} {p : Nat × Nat}
    (hnd : (pairs.map Prod.fst).Nodup) (hp : p ∈ pairs) :
    pairs.find? (fun q => q.1 == p.1) = some p := by
  induction pairs with
  | nil => cases hp
  | cons q rest ih =>
    rw [List.map_cons, List.nodup_cons] at hnd
    rcases List.mem_cons.mp hp with h | h
    · subst h
      exact List.find?_cons_of_pos rest (by simp)
    · have hne : ¬ (q.1 == p.1) = true := by
        simp only [beq_iff_eq]
        intro e
        exact hnd.1 (e ▸ List.mem_map_of_mem Prod.fst h)
      rw [List.find?_cons_of_neg rest hne]
      exact ih hnd.2 h

theorem map_getD_range {l : List (List Nat)} {n : Nat} (h : l.length = n) :
    (List.range n).map (fun i => l.getD i []) = l := by
  apply List.ext_getElem?
  intro i
  rw [List.getElem?_map]
  by_cases hi : i < n
  · rw [List.getElem?_range hi]
    have hil : i < l.length := h ▸ hi
    simp [List.getD_eq_getElem?_getD, List.getElem?_eq_getElem hil]
  · rw [List.getElem?_eq_none (by simpa using Nat.le_of_not_lt hi),
      List.getElem?_eq_none (by omega)]
    rfl

theorem chunkPixelsAux_length (c : Nat) :
    ∀ (n : Nat) (buf : List Nat), (chunkPixelsAux c n buf).length = n
  | 0, _ => rfl
  | Nat.succ n, buf => by
    simp [chunkPixelsAux, chunkPixelsAux_length c n]

theorem chunkPixelsAux_mem_length (c : Nat) :
    ∀ (n : Nat) (buf : List Nat), buf.length = n * c →
      ∀ t ∈ chunkPixelsAux c n buf, t.length = c
  | 0, buf, h, t, ht => absurd ht (by simp [chunkPixelsAux])
  | Nat.succ n, buf, h, t, ht => by
    simp only [chunkPixelsAux, List.mem_cons] at ht
    rcases ht with rfl | ht
    · rw [List.length_take, h, Nat.succ_mul]
      omega
    · exact chunkPixelsAux_mem_length c n (buf.drop c)
        (by rw [List.length_drop, h, Nat.succ_mul]; omega) t ht

theorem chunkPixelsAux_flatten (c : Nat) :
    ∀ (ps : List (List Nat)), (∀ t ∈ ps, t.length = c) →
      chunkPixelsAux c ps.length ps.flatten = ps
  | [], _ => rfl
  | t :: rest, h => by
    have ht : t.length = c := h t (List.mem_cons_self t rest)
    show (t ++ rest.flatten).take c :: chunkPixelsAux c rest.length ((t ++ rest.flatten).drop c) =
      t :: rest
    rw [List.take_left' ht, List.drop_left' ht,
      chunkPixelsAux_flatten c rest (fun u hu => h u (List.mem_cons_of_mem t hu))]

theorem flatten_length_of_uniform {c : Nat} :
    ∀ {L : List (List Nat)}, (∀ t ∈ L, t.length = c) → L.flatten.length = L.length * c
  | [], _ => by simp
  | t :: rest, h => by
    simp only [List.flatten_cons, List.length_append, List.length_cons]
    rw [h t (List.mem_cons_self t rest),
      flatten_length_of_uniform (fun u hu => h u (List.mem_cons_of_mem t hu)),
      Nat.succ_mul]
    omega

theorem rowLines_flatten (w h : Nat) : (rowLines w h).flatten = List.range (h * w) := by
  induction h with
  | zero => simp [rowLines]
  | succ h ih =>
    rw [rowLines, List.range_succ, List.map_append, List.flatten_append, Nat.succ_mul,
      List.range_add]
    simp only [rowLines] at ih
    simp [ih]

theorem mem_colLines_flatten {w h k : Nat} :
    k ∈ (colLines w h).flatten ↔ k < w * h := by
  simp only [colLines, List.mem_flatten, List.mem_map, List.mem_range]
  constructor
  · rintro ⟨l, ⟨x, hx, rfl⟩, hk⟩
    simp only [List.mem_map, List.mem_range] at hk
    obtain ⟨y, hy, rfl⟩ := hk
    calc y * w + x < y * w + w := Nat.add_lt_add_left hx _
    _ = (y + 1) * w := (Nat.succ_mul y w).symm
    _ ≤ h * w := Nat.mul_le_mul_right w hy
    _ = w * h := Nat.mul_comm h w
  · intro hk
    have hw : 0 < w := by
      rcases Nat.eq_zero_or_pos w with rfl | hw
      · simp at hk
      · exact hw
    refine ⟨(List.range h).map (fun y => y * w + k % w), ⟨k % w, Nat.mod_lt k hw, rfl⟩, ?_⟩
    simp only [List.mem_map, List.mem_range]
    refine ⟨k / w, ?_, ?_⟩
    · rw [Nat.div_lt_iff_lt_mul hw, Nat.mul_comm]
      exact hk
    · rw [Nat.mul_comm]
      exact Nat.div_add_mod k w

theorem colLines_flatten_nodup (w h : Nat) : ((colLines w h).flatten).Nodup := by
  rw [List.nodup_flatten]
  constructor
  · intro l hl
    simp only [colLines, List.mem_map, List.mem_range] at hl
    obtain ⟨x, hx, rfl⟩ := hl
    refine List.Nodup.map ?_ (List.nodup_range h)
    intro y₁ y₂ e
    have hw : 0 < w := Nat.lt_of_le_of_lt (Nat.zero_le x) hx
    have e' : y₁ * w + x = y₂ * w + x := e
    have : y₁ * w = y₂ * w := by omega
    exact Nat.eq_of_mul_eq_mul_right hw this
  · rw [colLines, List.pairwise_map, List.pairwise_iff_getElem]
    intro i j hi hj hij
    rw [List.length_range] at hi hj
    rw [List.getElem_range, List.getElem_range]
    intro k hk₁ hk₂
    simp only [List.mem_map, List.mem_range] at hk₁ hk₂
    obtain ⟨y₁, _, e₁⟩ := hk₁
    obtain ⟨y₂, _, e₂⟩ := hk₂
    have m₁ : k % w = i := by
      rw [← e₁, Nat.add_comm, Nat.add_mul_mod_self_right]
      exact Nat.mod_eq_of_lt hi
    have m₂ : k % w = j := by
      rw [← e₂, Nat.add_comm, Nat.add_mul_mod_self_right]
      exact Nat.mod_eq_of_lt hj
    omega

theorem colLines_flatten_perm (w h : Nat) :
    List.Perm ((colLines w h).flatten) (List.range (w * h)) :=
  (List.perm_ext_iff_of_nodup (colLines_flatten_nodup w h) (List.nodup_range _)).mpr
    (fun k => by rw [mem_colLines_flatten, List.mem_range])

theorem partition_flatten_perm (w h : Nat) (m : RangeMode) :
    List.Perm ((partitionLines w h m).flatten) (List.range (w * h)) := by
  cases m with
  | Row =>
    show List.Perm ((rowLines w h).flatten) (List.range (w * h))
    rw [rowLines_flatten, Nat.mul_comm h w]
  | Column => exact colLines_flatten_perm w h
  | RowMajor => simp [partitionLines]
  | ColumnMajor => simpa [partitionLines] using colLines_flatten_perm w h

theorem linePairs_map_fst (img : Image) (cfg : SortConfig) :
    (linePairs img cfg).map Prod.fst =
      (partitionLines img.width img.height cfg.sort_range).flatten := by
  rw [linePairs, List.map_flatten, List.map_map]
  have h1 : List.map (List.map Prod.fst ∘ fun line => line.zip (sortLine img cfg line))
      (partitionLines img.width img.height cfg.sort_range) =
      List.map id (partitionLines img.width img.height cfg.sort_range) := by
    apply List.map_congr_left
    intro line _
    show (line.zip (sortLine img cfg line)).map Prod.fst = line
    exact List.map_fst_zip line _ (Nat.le_of_eq (sortLine_length img cfg line).symm)
  rw [h1, List.map_id]

theorem linePairs_map_snd_perm (img : Image) (cfg : SortConfig) :
    List.Perm ((linePairs img cfg).map Prod.snd)
      ((partitionLines img.width img.height cfg.sort_range).flatten) := by
  rw [linePairs, List.map_flatten, List.map_map]
  apply List.Perm.flatten_congr
  rw [List.forall₂_map_left_iff, List.forall₂_same]
  intro line _
  show List.Perm ((line.zip (sortLine img cfg line)).map Prod.snd) line
  rw [List.map_snd_zip line _ (Nat.le_of_eq (sortLine_length img cfg line))]
  exact sortLine_perm img cfg line

theorem writeback_snd_getElem? (pixIn : List (List Nat)) :
    ∀ (pairs : List (Nat × Nat)) (st : List (List Nat) × List (List Nat)) (d : Nat),
      (pairs.map Prod.fst).Nodup → d < st.2.length →
      (writeback pixIn pairs st).2[d]? =
        (match pairs.find? (fun q => q.1 == d) with
         | some p => some (pixIn.getD p.2 [])
         | none => st.2[d]?)
  | [], st, d, _, _ => rfl
  | p :: rest, st, d, hnd, hd => by
    rw [List.map_cons, List.nodup_cons] at hnd
    show (writeback pixIn rest (writebackStep pixIn st p)).2[d]? = _
    have hlen : d < (writebackStep pixIn st p).2.length := by
      show d < (st.2.set p.1 _).length
      rw [List.length_set]
      exact hd
    rw [writeback_snd_getElem? pixIn rest _ d hnd.2 hlen]
    by_cases hpd : p.1 = d
    · subst hpd
      have hfr : rest.find? (fun q => q.1 == p.1) = none := by
        rw [List.find?_eq_none]
        intro q hq hbeq
        rw [beq_iff_eq] at hbeq
        exact hnd.1 (hbeq ▸ List.mem_map_of_mem Prod.fst hq)
      rw [hfr, List.find?_cons_of_pos rest (by simp)]
      show (st.2.set p.1 (pixIn.getD p.2 []))[p.1]? = some (pixIn.getD p.2 [])
      exact List.getElem?_set_self hd
    · rw [List.find?_cons_of_neg rest (by simp [hpd])]
      cases hfr : rest.find? (fun q => q.1 == d) with
      | some q => rfl
      | none =>
        show (st.2.set p.1 (pixIn.getD p.2 []))[d]? = st.2[d]?
        exact List.getElem?_set_ne hpd

theorem validate_eq_none_iff (img : Image) (cfg : SortConfig) :
    validate img cfg = none ↔
      cfg.sort_channel ≠ [] ∧ cfg.sort_channel.Nodup ∧
      (∀ ch ∈ cfg.sort_channel, ch ∈ img.channels) ∧
      img.buffer.length = img.width * img.height * img.channels.length := by
  unfold validate
  split_ifs with h₁ h₂ h₃ h₄ <;> simp_all

theorem channels_length_pos (img : Image) (cfg : SortConfig)
    (hv : validate img cfg = none) : 0 < img.channels.length := by
  obtain ⟨hne, -, hsub, -⟩ := (validate_eq_none_iff img cfg).mp hv
  cases hch : cfg.sort_channel with
  | nil => exact absurd hch hne
  | cons ch rest =>
    have : ch ∈ img.channels := hsub ch (hch ▸ List.mem_cons_self ch rest)
    exact List.length_pos.mpr (List.ne_nil_of_mem this)

theorem runWriteback_spec (img : Image) (cfg : SortConfig)
    (hv : validate img cfg = none) :
    (runWriteback img cfg).2.length = img.width * img.height ∧
    (∀ t ∈ (runWriteback img cfg).2, t.length = img.channels.length) ∧
    List.Perm (runWriteback img cfg).2 img.pixels := by
  obtain ⟨-, -, -, hshape⟩ := (validate_eq_none_iff img cfg).mp hv
  set n := img.width * img.height with hn
  set c := img.channels.length with hc
  set pairs := linePairs img cfg with hpairs
  have hfst_perm : List.Perm (pairs.map Prod.fst) (List.range n) := by
    rw [hpairs, linePairs_map_fst]
    exact partition_flatten_perm img.width img.height cfg.sort_range
  have hsnd_perm : List.Perm (pairs.map Prod.snd) (List.range n) :=
    (linePairs_map_snd_perm img cfg).trans
      (partition_flatten_perm img.width img.height cfg.sort_range)
  have hnd : (pairs.map Prod.fst).Nodup :=
    hfst_perm.nodup_iff.mpr (List.nodup_range n)
  have hpixlen : img.pixels.length = n := chunkPixelsAux_length c n img.buffer
  have hpixmem : ∀ t ∈ img.pixels, t.length = c :=
    chunkPixelsAux_mem_length c n img.buffer (by rw [hshape, hn, hc, Nat.mul_assoc])
  have hsrc : ∀ p ∈ pairs, p.2 < n := fun p hp =>
    List.mem_range.mp (hsnd_perm.mem_iff.mp (List.mem_map_of_mem Prod.snd hp))
  have hreslen : (runWriteback img cfg).2.length = n := by
    rw [runWriteback, writeback_snd_length]
    exact List.length_replicate n []
  have hres : (runWriteback img cfg).2 =
      (List.range n).map (fun d =>
        match pairs.find? (fun q => q.1 == d) with
        | some p => img.pixels.getD p.2 []
        | none => []) := by
    apply List.ext_getElem?
    intro i
    by_cases hi : i < n
    · rw [List.getElem?_map, List.getElem?_range hi, runWriteback,
        writeback_snd_getElem? img.pixels _ _ i hnd
          (by rw [List.length_replicate]; exact hi)]
      simp only [Option.map_some']
      cases hfind : pairs.find? (fun q => q.1 == i) with
      | some p => rfl
      | none =>
        show (List.replicate n ([] : List Nat))[i]? = _
        rw [List.getElem?_replicate, if_pos hi]
    · rw [List.getElem?_eq_none (by rw [hreslen]; omega),
        List.getElem?_eq_none (by rw [List.length_map, List.length_range]; omega)]
  have hcov : ∀ d, d < n → ∃ p ∈ pairs, pairs.find? (fun q => q.1 == d) = some p := by
    intro d hd
    have hmem : d ∈ pairs.map Prod.fst := hfst_perm.mem_iff.mpr (List.mem_range.mpr hd)
    obtain ⟨p, hp, he⟩ := List.mem_map.mp hmem
    exact ⟨p, hp, he ▸ find?_keys_eq_some hnd hp⟩
  have hmemlen : ∀ t ∈ (runWriteback img cfg).2, t.length = c := by
    intro t ht
    rw [hres] at ht
    obtain ⟨d, hd, he⟩ := List.mem_map.mp ht
    rw [List.mem_range] at hd
    obtain ⟨p, hp, hfind⟩ := hcov d hd
    have he' : (match pairs.find? (fun q => q.1 == d) with
        | some p => img.pixels.getD p.2 []
        | none => ([] : List Nat)) = t := he
    rw [hfind] at he'
    have he'' : img.pixels.getD p.2 [] = t := he'
    have hp2 : p.2 < img.pixels.length := hpixlen ▸ hsrc p hp
    have hgd : img.pixels.getD p.2 [] = img.pixels[p.2] := by
      simp [List.getD_eq_getElem?_getD, List.getElem?_eq_getElem hp2]
    rw [hgd] at he''
    exact he'' ▸ hpixmem _ (List.getElem_mem hp2)
  refine ⟨hreslen, hmemlen, ?_⟩
  rw [hres]
  have p₁ : List.Perm
      ((List.range n).map (fun d =>
        match pairs.find? (fun q => q.1 == d) with
        | some p => img.pixels.getD p.2 []
        | none => []))
      ((pairs.map Prod.fst).map (fun d =>
        match pairs.find? (fun q => q.1 == d) with
        | some p => img.pixels.getD p.2 []
        | none => [])) :=
    List.Perm.map _ hfst_perm.symm
  have p₂ : (pairs.map Prod.fst).map (fun d =>
        match pairs.find? (fun q => q.1 == d) with
        | some p => img.pixels.getD p.2 []
        | none => []) =
      pairs.map (fun p => img.pixels.getD p.2 []) := by
    rw [List.map_map]
    apply List.map_congr_left
    intro p hp
    show (match pairs.find? (fun q => q.1 == p.1) with
         | some p => img.pixels.getD p.2 []
         | none => []) = img.pixels.getD p.2 []
    rw [find?_keys_eq_some hnd hp]
  have p₃ : pairs.map (fun p => img.pixels.getD p.2 []) =
      (pairs.map Prod.snd).map (fun i => img.pixels.getD i []) := by
    rw [List.map_map]
    rfl
  have p₄ : List.Perm ((pairs.map Prod.snd).map (fun i => img.pixels.getD i []))
      ((List.range n).map (fun i => img.pixels.getD i [])) :=
    List.Perm.map _ hsnd_perm
  have p₅ : (List.range n).map (fun i => img.pixels.getD i []) = img.pixels :=
    map_getD_range hpixlen
  refine p₁.trans ?_
  rw [p₂, p₃]
  exact p₄.trans (List.Perm.of_eq p₅)

/-! ## Claims -/

/-- C1: for every valid input image and configuration (every invocation the
engine accepts), the output is a permutation of the input: the multiset of
pixel channel-tuples in the output buffer equals the multiset of pixel
channel-tuples in the input buffer — no pixel value is altered, dropped, or
duplicated. -/
theorem engine_permutes_pixels (img : Image) (cfg : SortConfig) (out : Image)
    (h : processImage img cfg = Except.ok out) :
    List.Perm out.pixels img.pixels := by
  unfold processImage at h
  cases hv : validate img cfg with
  | some e => rw [hv] at h; exact absurd h (by simp)
  | none =>
    rw [hv] at h
    have hout := Except.ok.inj h
    subst hout
    obtain ⟨hlen, hmem, hperm⟩ := runWriteback_spec img cfg hv
    show List.Perm (Image.pixels
      { width := img.width, height := img.height, channels := img.channels,
        buffer := (runWriteback img cfg).2.flatten }) img.pixels
    rw [Image.pixels]
    have : chunkPixelsAux img.channels.length (runWriteback img cfg).2.length
        (runWriteback img cfg).2.flatten = (runWriteback img cfg).2 :=
      chunkPixelsAux_flatten img.channels.length (runWriteback img cfg).2 hmem
    rw [hlen] at this
    exact (List.Perm.of_eq this).trans hperm

/-- C1 witness: a concrete accepted invocation whose output pixel multiset is
checked against the input. -/
theorem engine_permutes_pixels_witness :
    processImage imgA cfgA = Except.ok outA ∧ List.Perm outA.pixels imgA.pixels :=
  ⟨rfl, engine_permutes_pixels imgA cfgA outA rfl⟩

/-- C2: the engine is deterministic — two runs on an identical (image, config)
input produce identical results, and in particular byte-identical output
buffers. -/
theorem engine_deterministic (img₁ img₂ : Image) (cfg₁ cfg₂ : SortConfig)
    (hi : img₁ = img₂) (hc : cfg₁ = cfg₂) :
    processImage img₁ cfg₁ = processImage img₂ cfg₂ ∧
    ∀ out₁ out₂, processImage img₁ cfg₁ = Except.ok out₁ →
      processImage img₂ cfg₂ = Except.ok out₂ → out₁.buffer = out₂.buffer := by
  subst hi
  subst hc
  refine ⟨rfl, ?_⟩
  intro out₁ out₂ h₁ h₂
  rw [h₁] at h₂
  rw [Except.ok.inj h₂]

/-- C2 witness: the determinism theorem applied to a concrete run. -/
theorem engine_deterministic_witness :
    processImage imgA cfgA = processImage imgA cfgA :=
  (engine_deterministic imgA imgA cfgA cfgA rfl rfl).1

/-- C3: every invocation is atomic: errors arise exactly at boundary
validation (before the writeback is committed), and the engine either fails
with an error or returns a complete output image of full shape — a
partially-sorted or partially-filled output is never observable. -/
theorem engine_atomic (img : Image) (cfg : SortConfig) :
    (∀ e, processImage img cfg = Except.error e ↔ validate img cfg = some e) ∧
    ((∃ e, processImage img cfg = Except.error e) ∨
     (∃ out, processImage img cfg = Except.ok out ∧ out.width = img.width ∧
       out.height = img.height ∧ out.channels = img.channels ∧
       out.buffer.length = img.width * img.height * img.channels.length)) := by
  cases hv : validate img cfg with
  | some e =>
    constructor
    · intro e'
      unfold processImage
      rw [hv]
      simp
    · exact Or.inl ⟨e, by unfold processImage; rw [hv]⟩
  | none =>
    constructor
    · intro e'
      unfold processImage
      rw [hv]
      simp
    · refine Or.inr ⟨Image.mk img.width img.height img.channels
        (runWriteback img cfg).2.flatten, ?_, rfl, rfl, rfl, ?_⟩
      · unfold processImage
        rw [hv]
      · obtain ⟨hlen, hmem, -⟩ := runWriteback_spec img cfg hv
        show (runWriteback img cfg).2.flatten.length = _
        rw [flatten_length_of_uniform hmem, hlen, Nat.mul_assoc]

/-- C4: for every image size and every `RangeMode`, the Partitioner's lines
tile the image exactly once: the concatenation of all lines is a permutation
of `[0, width*height)` (so every pixel index appears in exactly one line and
exactly once there), the lines are pairwise disjoint, and their union covers
exactly the pixel indices. -/
theorem partitioner_tiles (w h : Nat) (m : RangeMode) :
    List.Perm ((partitionLines w h m).flatten) (List.range (w * h)) ∧
    List.Pairwise List.Disjoint (partitionLines w h m) ∧
    (∀ i, i < w * h ↔ ∃ line ∈ partitionLines w h m, i ∈ line) := by
  have hp := partition_flatten_perm w h m
  refine ⟨hp, ?_, ?_⟩
  · have hnd : (partitionLines w h m).flatten.Nodup :=
      hp.nodup_iff.mpr (List.nodup_range _)
    exact (List.nodup_flatten.mp hnd).2
  · intro i
    rw [← List.mem_range (n := w * h), ← hp.mem_iff, List.mem_flatten]

/-- C5: under `TiedBySum` the sort key of a pixel is the single scalar sum of
its raw channel tuple, and any two pixels of a line with equal sums keep
their original relative order in the sorted line (stable sort by the scalar
key only, no secondary channel comparison). -/
theorem tiedBySum_scalar_key_stable (img : Image) (cfg : SortConfig)
    (line : List Nat) (i j : Nat)
    (hmode : cfg.sort_mode = some TieMode.TiedBySum)
    (hsub : List.Sublist [i, j] line)
    (hsum : (rawTuple img cfg i).sum = (rawTuple img cfg j).sum) :
    sortKey img cfg i = [(rawTuple img cfg i).sum] ∧
    List.Sublist [i, j] (sortLine img cfg line) := by
  have hkey : ∀ k, sortKey img cfg k = [(rawTuple img cfg k).sum] := by
    intro k
    simp [sortKey, effMode, hmode]
  refine ⟨hkey i, ?_⟩
  refine List.pair_sublist_insertionSort ?_ hsub
  cases hdesc : cfg.descending with
  | false => simp [pixLE, hdesc, hkey, hsum, lexLE_refl]
  | true => simp [pixLE, hdesc, hkey, hsum, lexLE_refl]

/-- C5 witness: the spec's scenario — pixels `(3,1,0)` and `(1,3,0)` under
`TiedBySum` with `sort_channel = [R, G]` both have sum 4 and keep their
original relative order. -/
theorem tiedBySum_scalar_key_stable_witness :
    sortKey imgB cfgB 0 = [(rawTuple imgB cfgB 0).sum] ∧
    List.Sublist [0, 1] (sortLine imgB cfgB [0, 1]) :=
  tiedBySum_scalar_key_stable imgB cfgB [0, 1] 0 1 rfl
    (List.Sublist.refl [0, 1]) (by decide)

/-- C6: the engine never mutates its input buffer: the Writeback pass threads
the input pixel buffer through unchanged (it writes only into the freshly
allocated output component), so the input's contents are identical before and
after an invocation. -/
theorem engine_preserves_input (img : Image) (cfg : SortConfig) :
    (runWriteback img cfg).1 = img.pixels :=
  writeback_fst img.pixels (linePairs img cfg)
    (img.pixels, List.replicate (img.width * img.height) [])

/-- C7: the engine's error taxonomy distinguishes `configError` (with the
offending field and expectation) from `internalInvariantError`, but the
TypeScript wrapper (`src/main.ts`, lines 42-45) catches every engine failure
and rethrows the generic `'Failed to process image'`: two distinct engine
errors reach the caller as the very same generic message, so neither the
field detail nor the internal/user distinction survives to the caller. -/
theorem wrapper_collapses_engine_errors :
    EngineError.configError "sort_channel" "a non-empty list of channels" ≠
      EngineError.internalInvariantError "partitioner lines do not tile the image" ∧
    (PngSorter.mk true).processImage
        (fun _ _ => Except.error
          (EngineError.configError "sort_channel" "a non-empty list of channels"))
        "config" [] =
      (JsResult.thrown "Failed to process image", true) ∧
    (PngSorter.mk true).processImage
        (fun _ _ => Except.error
          (EngineError.internalInvariantError "partitioner lines do not tile the image"))
        "config" [] =
      (JsResult.thrown "Failed to process image", true) :=
  ⟨fun h => EngineError.noConfusion h, rfl, rfl⟩

/-- C8: `PngSorter.processImage` never invokes the WASM engine before
initialization — while `isInitialized` is false it throws
`'WASM module not initialized'` without calling `wasm_main` — and
`isInitialized` becomes true only when the `wasmInit()` call resolves
successfully. -/
theorem wrapper_requires_initialization (s : PngSorter)
    (wasmMain : String → List Nat → Except EngineError (List Nat))
    (configStr : String) (input : List Nat) (r : Except String Unit) :
    (s.isInitialized = false →
      s.processImage wasmMain configStr input =
        (JsResult.thrown "WASM module not initialized", false)) ∧
    ((s.init r).1.isInitialized = true ↔
      (∃ u, r = Except.ok u) ∨ s.isInitialized = true) := by
  constructor
  · intro h
    rw [PngSorter.processImage, if_pos h]
  · cases r with
    | ok u => simp [PngSorter.init]
    | error e => simp [PngSorter.init]

/-- C8 witness: an uninitialized sorter rejects a call without invoking the
engine. -/
theorem wrapper_requires_initialization_witness :
    (PngSorter.mk false).processImage (fun _ _ => Except.ok []) "config" [] =
      (JsResult.thrown "WASM module not initialized", false) :=
  (wrapper_requires_initialization (PngSorter.mk false) (fun _ _ => Except.ok [])
    "config" [] (Except.ok ())).1 rfl

/-- C9: the UI never invokes the engine with an empty `sort_channel`:
`getSelectedChannelsInOrder` produces exactly the `data-channel` values of the
checked channel items in DOM order, an empty list makes `handleProcessImage`
show an error and return without invoking the engine, and every actual
invocation carries that exact non-empty list. -/
theorem ui_guards_empty_channels (st : AppState) (items : List ChannelItem)
    (descendingChecked : Bool) (rangeValue modeValue : String) :
    getSelectedChannelsInOrder items =
      (items.filter (fun it => it.checkbox == some true)).filterMap
        (fun it => it.dataChannel) ∧
    (getSelectedChannelsInOrder items = [] → ∀ f, st.currentImageFile = some f →
      handleProcessImage st items descendingChecked rangeValue modeValue =
        ProcessOutcome.emptyChannelsError) ∧
    (∀ d' rv mv chs,
      handleProcessImage st items descendingChecked rangeValue modeValue =
        ProcessOutcome.invoked d' rv mv chs →
      chs = getSelectedChannelsInOrder items ∧ chs ≠ []) := by
  refine ⟨?_, ?_, ?_⟩
  · have go : ∀ (l : List ChannelItem) (acc : List String),
        l.foldl
          (fun channels item =>
            match item.checkbox with
            | some true =>
              match item.dataChannel with
              | some ch => channels ++ [ch]
              | none => channels
            | _ => channels) acc =
        acc ++ (l.filter (fun it => it.checkbox == some true)).filterMap
          (fun it => it.dataChannel) := by
      intro l
      induction l with
      | nil => simp
      | cons it rest ih =>
        intro acc
        rw [List.foldl_cons]
        cases hcb : it.checkbox with
        | none => simp only [hcb, List.filter_cons, beq_iff_eq]; rw [ih]; simp
        | some b =>
          cases b with
          | false => simp only [hcb, List.filter_cons, beq_iff_eq]; rw [ih]; simp
          | true =>
            cases hdc : it.dataChannel with
            | none =>
              simp only [hcb, hdc, List.filter_cons, beq_iff_eq]
              rw [ih]
              simp [List.filterMap_cons, hdc]
            | some ch =>
              simp only [hcb, hdc, List.filter_cons, beq_iff_eq]
              rw [ih]
              simp [List.filterMap_cons, hdc]
    simpa using go items []
  · intro hempty f hf
    unfold handleProcessImage
    rw [hf]
    simp [hempty]
  · intro d' rv mv chs h
    unfold handleProcessImage at h
    cases hf : st.currentImageFile with
    | none => rw [hf] at h; exact absurd h (by simp)
    | some f =>
      rw [hf] at h
      by_cases hlen : (getSelectedChannelsInOrder items).length = 0
      · rw [if_pos hlen] at h
        exact absurd h (by simp)
      · rw [if_neg hlen] at h
        have h' : ProcessOutcome.invoked descendingChecked rangeValue modeValue
            (getSelectedChannelsInOrder items) =
            ProcessOutcome.invoked d' rv mv chs := h
        have hinj := ProcessOutcome.invoked.inj h'
        refine ⟨hinj.2.2.2.symm, ?_⟩
        intro he
        apply hlen
        rw [hinj.2.2.2, he]
        rfl

/-- C9 witness: a single checked `R` item yields the channel list `["R"]`,
which is what the invocation carries, and it is non-empty. -/
theorem ui_guards_empty_channels_witness :
    (["R"] : List String) = getSelectedChannelsInOrder [⟨some true, some "R"⟩] ∧
    (["R"] : List String) ≠ [] :=
  (ui_guards_empty_channels ⟨some ⟨"a.png", "image/png"⟩⟩ [⟨some true, some "R"⟩]
    false "Row" "Untied").2.2 false "Row" "Untied" ["R"] rfl

/-- C10: `handleImageSelect` maintains the invariant that `currentImageFile`,
whenever set, holds a file whose MIME type matches `/image\/png/`: a selected
file of another type is rejected with the error message, leaving
`currentImageFile` unchanged. -/
theorem ui_png_type_invariant (st : AppState) (selectedFile : Option JsFile)
    (hinv : ∀ f, st.currentImageFile = some f → typeMatchesPng f.mimeType = true) :
    (∀ f', (handleImageSelect st selectedFile).1.currentImageFile = some f' →
      typeMatchesPng f'.mimeType = true) ∧
    (∀ f, selectedFile = some f → typeMatchesPng f.mimeType = false →
      handleImageSelect st selectedFile =
        (st, some (UiMessage.errorMsg "Please select a PNG image file."))) := by
  constructor
  · intro f' h
    cases selectedFile with
    | none => exact hinv f' h
    | some file =>
      by_cases ht : typeMatchesPng file.mimeType = false
      · rw [handleImageSelect] at h
        simp only [ht, if_pos rfl] at h
        exact hinv f' h
      · rw [handleImageSelect] at h
        simp only [if_neg ht] at h
        have h' : some file = some f' := h
        rw [← Option.some.inj h']
        simp only [Bool.not_eq_false] at ht
        exact ht
  · intro f hf hty
    subst hf
    rw [handleImageSelect]
    simp [hty]

/-- C10 witness: selecting a PNG-typed file on a fresh state stores a file
whose type matches. -/
theorem ui_png_type_invariant_witness :
    typeMatchesPng (JsFile.mk "a.png" "image/png").mimeType = true :=
  (ui_png_type_invariant ⟨none⟩ (some ⟨"a.png", "image/png"⟩)
    (fun _ h => by cases h)).1 ⟨"a.png", "image/png"⟩ (by decide)

end Pngsort
